import Mathlib

/-!
Shallow embedding of the ingestion-filter-dedupe pipeline of
`kpop_bot.py` (class `KpopIntelligenceBot`), together with theorems
settling the specification claims about it.

Python strings are modelled as Lean `String`/`List Char`; all configured
vocabulary and every input considered here is ASCII, so Python's
`str.lower` is modelled as a per-character ASCII lowering (`pyLower`).
`requests`/network effects are modelled as explicit oracle functions
(`fetchOg`), and BeautifulSoup field access on a raw feed entry is
modelled by `Option String` fields on `RawEntry` (a missing tag is
`none`, and `.text` on a missing tag raises `AttributeError`).
-/

namespace KpopBot

/-- Python `\w` word character for the regex `\b` boundary (ASCII part):
alphanumeric or underscore. -/
def wordChar (c : Char) : Bool := c.isAlphanum || c == '_'

/-- `leadsWith n h`: the char list `n` is a prefix of `h`. -/
def leadsWith : List Char → List Char → Bool
  | [], _ => true
  | _ :: _, [] => false
  | a :: as, b :: bs => a == b && leadsWith as bs

/-- `containsSeq n h`: Python substring test `n in h` on char lists. -/
def containsSeq (n : List Char) : List Char → Bool
  | [] => leadsWith n []
  | c :: cs => leadsWith n (c :: cs) || containsSeq n cs

/-- `endsWithSeq n h`: the char list `n` is a suffix of `h`
(Python `h.endswith(n)`). -/
def endsWithSeq (n h : List Char) : Bool := leadsWith n.reverse h.reverse

/-- Python `s.lower()` (per-character ASCII case folding). -/
def pyLower (s : String) : String := ⟨s.data.map Char.toLower⟩

/-- `strIn needle hay`: Python `needle in hay` on strings. -/
def strIn (needle hay : String) : Bool := containsSeq needle.data hay.data

/-- `self.whitelist` from `KpopIntelligenceBot.__init__` (a Python set;
iteration order never matters below, only membership). -/
def whitelist : List String :=
  ["soompi.com", "allkpop.com", "billboard.com", "nme.com",
   "koreaboo.com", "rollingstone.com", "weverse.io", "hypebeast.com",
   "variety.com", "koreaherald.com"]

/-- `self.validation_keywords` from `KpopIntelligenceBot.__init__`. -/
def validation_keywords : List String :=
  ["confirmed", "announced", "schedule", "ticket sales",
   "dates", "cities", "unveils", "drops", "release", "comeback"]

/-- `self.BAD_IMAGE_PATTERNS` from `KpopIntelligenceBot.__init__`. -/
def BAD_IMAGE_PATTERNS : List String :=
  ["lh3.googleusercontent.com", "google.com/logos", "gstatic.com", "gnews-logo"]

/-- The alternatives of `self.city_regex`, in their source order. -/
def cityVocab : List String :=
  ["Seattle", "New York", "NYC", "Los Angeles", "LA", "Chicago", "Houston",
   "Atlanta", "Dallas", "San Francisco", "Oakland", "Newark",
   "Washington D.C.", "Las Vegas", "Anaheim", "Inglewood", "Rosemont",
   "Fort Worth", "Belmont Park", "Reading"]

/-- The month alternatives of `self.date_regex`, in their source order. -/
def monthVocab : List String :=
  ["Jan", "Feb", "Mar", "Apr", "May", "Jun",
   "Jul", "Aug", "Sep", "Oct", "Nov", "Dec"]

/-- `KpopIntelligenceBot.is_valid_image` (kpop_bot.py lines 97-104):
false on the empty url, false when any bad pattern occurs as a substring,
true otherwise. -/
def is_valid_image (url : String) : Bool :=
  if url.data.isEmpty then false
  else !(BAD_IMAGE_PATTERNS.any (fun pat => strIn pat url))

/-- Characters allowed in a URL scheme by `urllib.parse` after the first. -/
def isSchemeChar (c : Char) : Bool := c.isAlphanum || c == '+' || c == '-' || c == '.'

/-- Scheme stripping of `urllib.parse.urlsplit`: if the text before the
first `:` is a nonempty valid scheme (first char a letter, the rest scheme
chars), drop it together with the colon. -/
def dropScheme (s : List Char) : List Char :=
  let pre := s.takeWhile (fun c => c ≠ ':')
  if pre.length < s.length && !pre.isEmpty &&
      pre.all isSchemeChar && (pre.headD 'a').isAlpha then
    s.drop (pre.length + 1)
  else s

/-- Python `str.split(sep)` for a one-character separator (an empty
input gives `[[]]`, a trailing separator a trailing `[]`). -/
def pySplit (sep : Char) : List Char → List (List Char)
  | [] => [[]]
  | c :: cs =>
    if c == sep then [] :: pySplit sep cs
    else
      match pySplit sep cs with
      | h :: t => (c :: h) :: t
      | [] => [[c]]

/-- Hex digit as in `ipaddress._HEX_DIGITS` (`0-9a-fA-F`). -/
def pyHexDigit (c : Char) : Bool :=
  c.isDigit || ('a' ≤ c && c ≤ 'f') || ('A' ≤ c && c ≤ 'F')

/-- Decimal value of a digit string (callers bound its length). -/
def octetVal (o : List Char) : Nat :=
  o.foldl (fun n c => n * 10 + (c.toNat - 48)) 0

/-- Validity of one dotted-quad octet per `ipaddress._parse_octet`:
nonempty, ASCII digits only, at most 3 of them, no leading zero, value
at most 255. -/
def octetValid (o : List Char) : Bool :=
  !o.isEmpty && o.all Char.isDigit && decide (o.length ≤ 3) &&
  (o == ['0'] || !(o.headD ' ' == '0')) && decide (octetVal o ≤ 255)

/-- Success of `ipaddress.IPv4Address(s)`: no `/`, exactly four valid
octets. -/
def ipv4Valid (s : List Char) : Bool :=
  !s.contains '/' &&
  (let octs := pySplit '.' s
   octs.length == 4 && octs.all octetValid)

/-- Validity of one IPv6 hextet per `ipaddress._parse_hextet`: one to
four hex digits (an empty hextet fails `int('', 16)`). -/
def hextetValid (p : List Char) : Bool :=
  !p.isEmpty && decide (p.length ≤ 4) && p.all pyHexDigit

/-- The colon-part analysis of `ipaddress._BaseV6._ip_int_from_string`
after any IPv4-suffix expansion: at most 9 parts, at most one empty
interior part (the `::`), endpoint emptiness only adjacent to the `::`,
at least one zero group skipped, and every copied part a valid
hextet. -/
def ipv6PartsValid (parts : List (List Char)) : Bool :=
  let n := parts.length
  if decide (n > 9) then false else
  match (List.range n).filter
      (fun i => decide (0 < i) && decide (i < n - 1) && (parts.getD i []).isEmpty) with
  | [] => n == 8 && parts.all hextetValid
  | [i] =>
    let headEmpty := (parts.getD 0 []).isEmpty
    let lastEmpty := (parts.getD (n - 1) []).isEmpty
    let hi := if headEmpty then i - 1 else i
    let lo0 := n - i - 1
    let lo := if lastEmpty then lo0 - 1 else lo0
    (!headEmpty || i == 1) && (!lastEmpty || lo0 == 1) &&
    decide (hi + lo ≤ 7) &&
    (parts.take hi).all hextetValid && (parts.drop (n - lo)).all hextetValid
  | _ => false

/-- Success of `ipaddress._BaseV6._ip_int_from_string`: nonempty, at
least three colon-separated parts, a dotted last part must be a valid
IPv4 address (then counts as two hextets), then the part analysis. -/
def ipv6AddrValid (s : List Char) : Bool :=
  if s.isEmpty then false else
  let parts0 := pySplit ':' s
  if decide (parts0.length < 3) then false else
  let lastPart := parts0.getLastD []
  if lastPart.contains '.' then
    ipv4Valid lastPart && ipv6PartsValid (parts0.dropLast ++ [['0'], ['0']])
  else ipv6PartsValid parts0

/-- Success of `ipaddress.IPv6Address(s)`: no `/`, an optional
`%scope_id` (nonempty, without a further `%`) split at the first `%`,
and a valid address part. -/
def ipv6Valid (s : List Char) : Bool :=
  !s.contains '/' &&
  (let addr := s.takeWhile (fun c => c ≠ '%')
   if addr.length == s.length then ipv6AddrValid addr
   else
     let scope := s.drop (addr.length + 1)
     !scope.isEmpty && !scope.contains '%' && ipv6AddrValid addr)

/-- Success of `urllib.parse._check_bracketed_host` (CPython 3.11): a
host starting with `v` must match `v[0-9a-fA-F]+\..+` (the trailing
`.+` is nonempty and free of newlines); any other host must be a valid
IPv6 address (a valid IPv4 address raises, and is not IPv6-valid
anyway). -/
def bracketValid (h : List Char) : Bool :=
  match h with
  | 'v' :: rest =>
    let hexs := rest.takeWhile pyHexDigit
    !hexs.isEmpty &&
      (match rest.drop hexs.length with
       | '.' :: tail => !tail.isEmpty && !tail.contains '\n'
       | _ => false)
  | _ => ipv6Valid h

/-- `urllib.parse.urlparse(url).netloc` per CPython 3.11 `urlsplit`:
strip leading C0-control-or-space characters, remove every tab, CR and
LF, strip a valid scheme, and when the rest starts with `//` cut the
netloc at the first `/`, `?` or `#`.  `none` models the `ValueError`
raises: a netloc with unbalanced square brackets, or a balanced
bracketed host failing `_check_bracketed_host`.  (`_checknetloc` can
raise only on non-ASCII netlocs, outside this file's declared ASCII
scope.) -/
def pyNetloc (url : String) : Option String :=
  let u0 := url.data.dropWhile (fun c => c.toNat ≤ 32)
  let u1 := u0.filter (fun c => !(c == '\t' || c == '\r' || c == '\n'))
  match dropScheme u1 with
  | '/' :: '/' :: t =>
    let nl := t.takeWhile (fun c => !(c == '/' || c == '?' || c == '#'))
    if (nl.contains '[' && !nl.contains ']') || (nl.contains ']' && !nl.contains '[') then
      none
    else if nl.contains '[' && nl.contains ']' then
      if bracketValid (((nl.dropWhile (fun c => c ≠ '[')).drop 1).takeWhile (fun c => c ≠ ']'))
      then some ⟨nl⟩ else none
    else some ⟨nl⟩
  | _ => some ""

/-- `KpopIntelligenceBot.is_whitelisted` (kpop_bot.py lines 106-112):
lowercase the parsed netloc and accept iff some whitelist domain is a
substring of it; the `except Exception` branch (live when `urlparse`
raises `ValueError` on an invalid bracketed host, modelled by
`pyNetloc = none`) returns false. -/
def is_whitelisted (url : String) : Bool :=
  match pyNetloc url with
  | some nl => whitelist.any (fun allowed => strIn allowed (pyLower nl))
  | none => false

/-- `KpopIntelligenceBot.validate_content` (kpop_bot.py lines 114-117). -/
def validate_content (text : String) : Bool :=
  let text_lower := pyLower text
  validation_keywords.any (fun keyword => strIn keyword text_lower)

/-- `KpopIntelligenceBot.is_whitelisted_source_name` (kpop_bot.py lines
209-216): lowercase the source name, remove spaces, and accept iff the
result is a substring of some whitelist domain with its dots removed. -/
def is_whitelisted_source_name (source_name : String) : Bool :=
  let name_clean : List Char := (pyLower source_name).data.filter (fun c => c ≠ ' ')
  whitelist.any (fun domain => containsSeq name_clean (domain.data.filter (fun c => c ≠ '.')))

/-- Gate A of `KpopIntelligenceBot.fetch_news` (kpop_bot.py lines
179-182), with its nested `if` structure kept: the entry is skipped
(`continue`) iff this returns true. -/
def gateAReject (source_name link : String) : Bool :=
  if !is_whitelisted_source_name source_name && !is_whitelisted link then
    if !is_whitelisted_source_name source_name then true else false
  else false

/-! ### Regex model for `city_regex` and `date_regex`

Both regexes are applied with `re.IGNORECASE` via `findall`, which scans
left to right, attempts an anchored match at each position, and after a
match resumes at its end.  Each pattern is of the form `\b(...)\b...`
with a single capturing group, so `findall` returns the group-1 text in
its original casing.  The matchers below return `(group1, wholeMatch)`
as the original consumed characters. -/

/-- Python's `\s` (ASCII part), used by `date_regex`. -/
def pySpace (c : Char) : Bool :=
  c == ' ' || c == '\t' || c == '\n' || c == '\r' || c == '\x0b' || c == '\x0c'

/-- The `\b` boundary between two adjacent characters (`none` = string
edge): holds iff exactly one side is a word character. -/
def boundary (a b : Option Char) : Bool :=
  (a.elim false wordChar) != (b.elim false wordChar)

/-- Case-insensitive literal match of pattern `p` against a prefix of the
input, returning the matched input characters in their original casing. -/
def ciTake : List Char → List Char → Option (List Char)
  | [], _ => some []
  | _ :: _, [] => none
  | p :: ps, c :: cs =>
    if p.toLower == c.toLower then
      match ciTake ps cs with
      | some m => some (c :: m)
      | none => none
    else none

/-- Try the alternatives of `city_regex`'s group in source order at the
current position; an alternative succeeds only if the trailing `\b`
holds after it (regex backtracking moves to the next alternative
otherwise). -/
def cityAlt (s : List Char) : List String → Option (List Char)
  | [] => none
  | v :: vs =>
    match ciTake v.data s with
    | some m =>
      if boundary m.getLast? ((s.drop m.length).head?) then some m
      else cityAlt s vs
    | none => cityAlt s vs

/-- Anchored match of `city_regex` at the current position (`prev` is the
character before the position, for the leading `\b`). -/
def matchCityAt (prev : Option Char) (s : List Char) : Option (String × List Char) :=
  if boundary prev s.head? then
    match cityAlt s cityVocab with
    | some m => some (⟨m⟩, m)
    | none => none
  else none

/-- The tail of `date_regex` after the month group:
`[a-z]*\.?\s+\d{1,2}(?:st|nd|rd|th)?,?\s+\d{4}\b`.  Every quantifier
here is deterministic under backtracking because each set of characters
is disjoint from what may legally follow it, so maximal munch is
faithful; returns the consumed characters. -/
def dateTail (s : List Char) : Option (List Char) :=
  let letters := s.takeWhile (fun c => c.isAlpha)
  let s1 := s.drop letters.length
  let dotPart : List Char := match s1 with
    | '.' :: _ => ['.']
    | _ => []
  let s2 := s1.drop dotPart.length
  let sp1 := s2.takeWhile pySpace
  if sp1.isEmpty then none else
  let s3 := s2.drop sp1.length
  let day := s3.takeWhile Char.isDigit
  if day.isEmpty || decide (3 ≤ day.length) then none else
  let s4 := s3.drop day.length
  let ordPart : List Char := match s4 with
    | a :: b :: _ =>
      if ["st", "nd", "rd", "th"].any
          (fun o => o.data.map Char.toLower == [a.toLower, b.toLower]) then [a, b]
      else []
    | _ => []
  let s5 := s4.drop ordPart.length
  let commaPart : List Char := match s5 with
    | ',' :: _ => [',']
    | _ => []
  let s6 := s5.drop commaPart.length
  let sp2 := s6.takeWhile pySpace
  if sp2.isEmpty then none else
  let s7 := s6.drop sp2.length
  let yearRun := s7.takeWhile Char.isDigit
  if decide (yearRun.length < 4) then none else
  let year := s7.take 4
  let s8 := s7.drop 4
  if boundary year.getLast? s8.head? then
    some (letters ++ dotPart ++ sp1 ++ day ++ ordPart ++ commaPart ++ sp2 ++ year)
  else none

/-- Try the month alternatives of `date_regex` at the current position,
backtracking to the next month when the tail fails. -/
def monthAlt (s : List Char) : List String → Option (String × List Char)
  | [] => none
  | mo :: mos =>
    match ciTake mo.data s with
    | some g =>
      match dateTail (s.drop g.length) with
      | some tail => some (⟨g⟩, g ++ tail)
      | none => monthAlt s mos
    | none => monthAlt s mos

/-- Anchored match of `date_regex` at the current position. -/
def matchDateAt (prev : Option Char) (s : List Char) : Option (String × List Char) :=
  if boundary prev s.head? then monthAlt s monthVocab
  else none

/-- `re.findall` scanning: attempt an anchored match at each position in
order; on success emit group 1 and resume after the whole match (all
matches here are nonempty), otherwise advance one character.  `prev` is
the character preceding the current position.  The `fuel` argument makes
the recursion structural; every step consumes at least one input
character, so `fuel = input length` (as passed by `pyFindAll`) never
runs out before the input does. -/
def findAllG (matchAt : Option Char → List Char → Option (String × List Char)) :
    Nat → Option Char → List Char → List String
  | 0, _, _ => []
  | _ + 1, _, [] => []
  | fuel + 1, prev, c :: rest =>
    match matchAt prev (c :: rest) with
    | some (g, m) =>
      match m with
      | [] => findAllG matchAt fuel (some c) rest
      | m1 :: mrest =>
        g :: findAllG matchAt fuel (m1 :: mrest).getLast? ((c :: rest).drop (m1 :: mrest).length)
    | none => findAllG matchAt fuel (some c) rest

/-- `regex.findall(s)` for a pattern with group-1 emission. -/
def pyFindAll (matchAt : Option Char → List Char → Option (String × List Char))
    (s : List Char) : List String :=
  findAllG matchAt s.length none s

/-- `KpopIntelligenceBot.extract_metadata` (kpop_bot.py lines 119-126):
`findall` both regexes over the text and turn each result into a set.
Python's `list(set(xs))` has unspecified order; it is modelled as
duplicate erasure (`List.dedup`), which is faithful at the set level at
which every claim about it is stated. -/
def extract_metadata (text : String) : List String × List String :=
  (List.dedup (pyFindAll matchCityAt text.data),
   List.dedup (pyFindAll matchDateAt text.data))

/-! ### Feed entries and the per-entry pipeline of `fetch_news` -/

/-- A raw feed `<item>` as BeautifulSoup sees it: each field is the
corresponding child tag's text, `none` when the tag is absent
(`media:content`'s `url` attribute likewise). -/
structure RawEntry where
  title : Option String
  source : Option String
  link : Option String
  pubDate : Option String
  description : Option String
  deriving DecidableEq

/-- The field extraction of `fetch_news` (kpop_bot.py lines 150-157).
`item.title.text` on an absent tag is `None.text`, an `AttributeError`
that propagates out of `fetch_news` (the only `try` guards the HTTP
request); the same holds for `link` and `pubDate`.  An absent `source`
yields `"Unknown"`, an absent `description` the empty string.  Returns
`(title, source_name, link, pub_date, description)`. -/
def getFields (e : RawEntry) :
    Except String (String × String × String × String × String) :=
  match e.title with
  | none => .error "AttributeError"
  | some t =>
    let source_name := e.source.getD "Unknown"
    match e.link with
    | none => .error "AttributeError"
    | some l =>
      match e.pubDate with
      | none => .error "AttributeError"
      | some pd => .ok (t, source_name, l, pd, e.description.getD "")

/-- A raw entry whose required tags are present, plus the two values the
image discovery reads from it: `media_content_url` models
`item.find("media:content")["url"]` and `desc_img_src` the `src` of the
first `<img>` BeautifulSoup finds in the description markup (the HTML
parse itself is abstracted as this input field). -/
structure Entry where
  title : String
  source_name : String
  link : String
  pub_date : String
  description : String
  media_content_url : Option String
  desc_img_src : Option String
  deriving DecidableEq

/-- The image discovery of `fetch_news` (kpop_bot.py lines 159-174):
prefer a nonempty `media:content` url (taken without validation), else,
when the description is nonempty, the first `<img>`'s nonempty `src`
provided `is_valid_image` accepts it. -/
def discoverImage (e : Entry) : String :=
  let image_url : String := ""
  let image_url : String :=
    match e.media_content_url with
    | some u => if u.data.isEmpty then image_url else u
    | none => image_url
  if image_url.data.isEmpty && !e.description.data.isEmpty then
    match e.desc_img_src with
    | some src =>
      if !src.data.isEmpty && is_valid_image src then src else image_url
    | none => image_url
  else image_url

/-- An accepted news candidate, the dict appended by `fetch_news`
(kpop_bot.py lines 195-205). -/
structure Candidate where
  artist : String
  topic : String
  title : String
  source : String
  url : String
  published_at : String
  image_url : String
  extracted_cities : List String
  extracted_dates : List String
  deriving DecidableEq

/-- The per-entry body of the `fetch_news` loop (kpop_bot.py lines
159-205) after field extraction: image discovery, Gate A (source
trust), Gate B (keyword relevance), metadata extraction, the final
image re-check, and emission; `none` means the entry was skipped. -/
def processEntry (artist topic : String) (e : Entry) : Option Candidate :=
  let image_url := discoverImage e
  let full_text := e.title ++ " " ++ e.description
  if gateAReject e.source_name e.link then none
  else if !validate_content full_text then none
  else
    let metadata := extract_metadata full_text
    let image_url2 :=
      if !image_url.data.isEmpty && !is_valid_image image_url then "" else image_url
    some { artist := artist, topic := topic, title := e.title,
           source := e.source_name, url := e.link, published_at := e.pub_date,
           image_url := image_url2, extracted_cities := metadata.1,
           extracted_dates := metadata.2 }

/-! ### `deduplicate` -/

/-- The dedup key: `item['title'][:30].lower()` (kpop_bot.py line 265). -/
def titleKey (c : Candidate) : String := pyLower ⟨c.title.data.take 30⟩

/-- The loop of `KpopIntelligenceBot.deduplicate` (kpop_bot.py lines
257-270) with the `seen_titles` set made explicit. -/
def deduplicateAux (seen : List String) : List Candidate → List Candidate
  | [] => []
  | item :: rest =>
    let key := titleKey item
    if key ∈ seen then deduplicateAux seen rest
    else item :: deduplicateAux (key :: seen) rest

/-- `KpopIntelligenceBot.deduplicate`. -/
def deduplicate (items : List Candidate) : List Candidate :=
  deduplicateAux [] items

/-- The specification's own description of deduplication ("keep the
first occurrence of each key, drop subsequent ones"), written
independently of the seen-set loop: keep the head, drop every later
candidate with its key, recurse. -/
def specDedup : List Candidate → List Candidate
  | [] => []
  | x :: xs =>
    x :: specDedup (xs.filter (fun y => titleKey y ≠ titleKey x))
  termination_by l => l.length
  decreasing_by
    simp_wf
    exact Nat.lt_succ_of_le (List.length_filter_le _ _)

/-! ### `enrich_with_images` -/

/-- The loop of `KpopIntelligenceBot.enrich_with_images` (kpop_bot.py
lines 235-255), instrumented: `fetchOg` is the network oracle standing
for `fetch_og_image` (returning `""` on any failure, as that function
does), `counts` is the `artist_counts` dict as an association list
(updates prepend, `lookup` sees the newest binding, matching dict
assignment).  Returns the updated items, the list of group keys of the
fetch attempts actually performed (in order), and the final counter
dict. -/
def enrichAux (fetchOg : String → String) (limit : Nat) :
    List (String × Nat) → List Candidate →
    List Candidate × List String × List (String × Nat)
  | counts, [] => ([], [], counts)
  | counts, item :: rest =>
    let key := item.artist ++ "_" ++ item.topic
    let count := ((counts.lookup key).getD 0)
    if count < limit && item.image_url.data.isEmpty then
      let item2 := { item with image_url := fetchOg item.url }
      let r := enrichAux fetchOg limit ((key, count + 1) :: counts) rest
      (item2 :: r.1, key :: r.2.1, r.2.2)
    else
      let r := enrichAux fetchOg limit counts rest
      (item :: r.1, r.2.1, r.2.2)

/-- `KpopIntelligenceBot.enrich_with_images`: the updated item list. -/
def enrich_with_images (fetchOg : String → String) (items : List Candidate)
    (limit_per_artist : Nat) : List Candidate :=
  (enrichAux fetchOg limit_per_artist [] items).1

/-- The URL-trust predicate as the specification words it ("accept iff
the URL's host, via standard URL parsing, ends with some trusted
domain"), to be compared with the implementation `is_whitelisted`. -/
def specUrlTrusted (url : String) : Bool :=
  match pyNetloc url with
  | some h => whitelist.any (fun d => endsWithSeq d.data (pyLower h).data)
  | none => false

/-- An entry whose text contains every relevance keyword but whose
source name and link domain are both untrusted. -/
def evilEntry : Entry :=
  { title := "confirmed announced schedule ticket sales dates cities unveils drops release comeback",
    source_name := "Evil Blog", link := "https://evil.example.net/x",
    pub_date := "Mon, 05 Jan 2026", description := "",
    media_content_url := none, desc_img_src := none }

/-- A trusted, relevant entry whose `media:content` image is a known-bad
URL, so it bypasses discovery-time validation and must be cleared by the
final re-check. -/
def soompiEntry : Entry :=
  { title := "BTS comeback confirmed", source_name := "Soompi",
    link := "https://www.soompi.com/article/1",
    pub_date := "Mon, 05 Jan 2026", description := "BTS comeback announced",
    media_content_url := some "https://lh3.googleusercontent.com/abc",
    desc_img_src := none }

/-- The candidate `processEntry` emits for `soompiEntry`. -/
def soompiCandidate : Candidate :=
  { artist := "BTS", topic := "Comeback", title := "BTS comeback confirmed",
    source := "Soompi", url := "https://www.soompi.com/article/1",
    published_at := "Mon, 05 Jan 2026", image_url := "",
    extracted_cities := [], extracted_dates := [] }

/-- First candidate of the spec's own deduplication example. -/
def candA : Candidate :=
  { artist := "BTS", topic := "US Tour", title := "BTS Confirms US Tour Dates For 2026",
    source := "Soompi", url := "https://soompi.com/a", published_at := "p1",
    image_url := "", extracted_cities := [], extracted_dates := [] }

/-- Second candidate: same first 30 title characters, every other field
different. -/
def candB : Candidate :=
  { artist := "BTS2", topic := "Comeback", title := "BTS Confirms US Tour Dates For Spring",
    source := "Billboard", url := "https://billboard.com/b", published_at := "p2",
    image_url := "https://x/y.jpg", extracted_cities := ["Seattle"], extracted_dates := ["Jan"] }

/-- A raw entry lacking only its `<title>` tag. -/
def missingTitleEntry : RawEntry :=
  { title := none, source := some "Soompi", link := some "https://www.soompi.com/a",
    pubDate := some "Mon, 05 Jan 2026", description := some "desc" }

/-- A raw entry lacking only its `<source>` tag. -/
def missingSourceEntry : RawEntry :=
  { title := some "t", source := none, link := some "u",
    pubDate := some "p", description := some "d" }


/-! ### Further helper lemmas -/

/-! ### Substring-test lemmas -/

theorem leadsWith_iff (n h : List Char) :
    leadsWith n h = true ↔ ∃ q, h = n ++ q := by
  induction n generalizing h with
  | nil => simp [leadsWith]
  | cons a as ih =>
    cases h with
    | nil => simp [leadsWith]
    | cons b bs =>
      simp only [leadsWith, Bool.and_eq_true, beq_iff_eq, ih]
      constructor
      · rintro ⟨rfl, q, rfl⟩; exact ⟨q, rfl⟩
      · rintro ⟨q, hq⟩
        injection hq with h1 h2
        exact ⟨h1.symm, q, h2⟩

theorem containsSeq_iff (n h : List Char) :
    containsSeq n h = true ↔ ∃ p q, h = p ++ n ++ q := by
  induction h with
  | nil =>
    simp only [containsSeq, leadsWith_iff]
    constructor
    · rintro ⟨q, hq⟩
      exact ⟨[], q, by simpa using hq⟩
    · rintro ⟨p, q, hpq⟩
      have := hpq.symm
      rcases List.append_eq_nil.mp (List.append_eq_nil.mp this).1 with ⟨h1, h2⟩
      exact ⟨q, by simp [h2, (List.append_eq_nil.mp this).2]⟩
  | cons c cs ih =>
    simp only [containsSeq, Bool.or_eq_true, leadsWith_iff, ih]
    constructor
    · rintro (⟨q, hq⟩ | ⟨p, q, hpq⟩)
      · exact ⟨[], q, by simpa using hq⟩
      · exact ⟨c :: p, q, by simp [hpq]⟩
    · rintro ⟨p, q, hpq⟩
      cases p with
      | nil => exact Or.inl ⟨q, by simpa using hpq⟩
      | cons x xs =>
        injection hpq with h1 h2
        exact Or.inr ⟨xs, q, h2⟩


theorem containsSeq_nil (h : List Char) : containsSeq [] h = true := by
  cases h <;> simp [containsSeq, leadsWith]

theorem str_empty_iff (s : String) : s.data = [] ↔ s = "" := by
  constructor
  · intro h
    exact String.ext (h.trans rfl)
  · rintro rfl
    rfl

/-! ### Claim C6 -/

/-- **C6**: `is_valid_image url` returns false iff `url` is empty or
`url` contains one of the configured `BAD_IMAGE_PATTERNS` as a
substring; on every other url it returns true. -/
theorem claim6_is_valid_image (url : String) :
    is_valid_image url = false ↔
      (url = "" ∨ ∃ p ∈ BAD_IMAGE_PATTERNS, ∃ a b, url.data = a ++ p.data ++ b) := by
  by_cases h : url.data = []
  · simp [is_valid_image, h, List.isEmpty_iff, (str_empty_iff url).mp h]
  · have h' : url.data.isEmpty = false := by
      simp [List.isEmpty_iff, h]
    have hne : ¬ url = "" := fun hu => h (by rw [hu])
    simp only [is_valid_image, h', Bool.false_eq_true, if_false, Bool.not_eq_false',
      List.any_eq_true, strIn, hne, false_or]
    constructor
    · rintro ⟨p, hp, hc⟩
      exact ⟨p, hp, (containsSeq_iff _ _).mp hc⟩
    · rintro ⟨p, hp, hab⟩
      exact ⟨p, hp, (containsSeq_iff _ _).mpr hab⟩

/-! ### Claim C7 -/

/-- **C7**: `validate_content text` is true iff some keyword of
`validation_keywords` is a case-insensitive substring of `text`
(substring containment after lowering both sides — no stemming, no word
boundaries). -/
theorem claim7_validate_content (text : String) :
    validate_content text = true ↔
      ∃ k ∈ validation_keywords, ∃ a b, (pyLower text).data = a ++ (pyLower k).data ++ b := by
  have hk : ∀ k ∈ validation_keywords, (pyLower k).data = k.data := by
    intro k hmem
    fin_cases hmem <;> rfl
  simp only [validate_content, strIn, List.any_eq_true]
  constructor
  · rintro ⟨k, hmem, hc⟩
    refine ⟨k, hmem, ?_⟩
    rw [hk k hmem]
    exact (containsSeq_iff _ _).mp hc
  · rintro ⟨k, hmem, hab⟩
    refine ⟨k, hmem, (containsSeq_iff _ _).mpr ?_⟩
    rw [← hk k hmem]
    exact hab

/-! ### Claim C2 -/

/-- **C2 counterexample**: the claim says `is_whitelisted` accepts iff
the URL's host *ends with* a trusted domain.  On
`https://soompi.com.evil.net/x` the host is `soompi.com.evil.net`,
which ends with no trusted domain, yet `is_whitelisted` accepts it
because `soompi.com` occurs as a substring.  Also, host parsing is
fallible: on `http://soompi.com[x/` the netloc has an unbalanced
bracket, `urlparse` raises, and the `except` branch rejects. -/
theorem claim2_counterexample :
    is_whitelisted "https://soompi.com.evil.net/x" = true ∧
    specUrlTrusted "https://soompi.com.evil.net/x" = false ∧
    pyNetloc "http://soompi.com[x/" = none ∧
    is_whitelisted "http://soompi.com[x/" = false := by
  exact ⟨rfl, rfl, rfl, rfl⟩

/-- **C2 amended**: `is_whitelisted url` accepts iff URL host parsing
succeeds on `url` (when `urlparse` raises, the `except` branch returns
false) and some trusted domain of the whitelist occurs as a
*substring* of the lowercased host — not necessarily as a suffix. -/
theorem claim2_amended (url : String) :
    is_whitelisted url = true ↔
      ∃ h, pyNetloc url = some h ∧
        ∃ d ∈ whitelist, ∃ a b, (pyLower h).data = a ++ d.data ++ b := by
  unfold is_whitelisted
  split
  next nl hn =>
    constructor
    · intro hw
      obtain ⟨d, hd, hc⟩ := List.any_eq_true.mp hw
      exact ⟨nl, hn, d, hd, (containsSeq_iff _ _).mp hc⟩
    · rintro ⟨h, hh, d, hd, hab⟩
      rw [hn] at hh
      cases Option.some.inj hh
      exact List.any_eq_true.mpr ⟨d, hd, (containsSeq_iff _ _).mpr hab⟩
  next hn =>
    simp only [Bool.false_eq_true, false_iff]
    rintro ⟨h, hh, _⟩
    rw [hn] at hh
    exact Option.noConfusion hh

/-! ### Claim C1 -/

/-- **C1**: Gate A rejection is the logical NOR of the two trust checks:
`gateAReject s l` is true iff both `is_whitelisted_source_name s` and
`is_whitelisted l` are false; consequently an entry whose source name
and link are both untrusted is skipped by `processEntry` (returns
`none`) irrespective of its text. -/
theorem claim1_gateA (s l artist topic : String) (e : Entry)
    (h1 : is_whitelisted_source_name e.source_name = false)
    (h2 : is_whitelisted e.link = false) :
    (gateAReject s l = true ↔
      (is_whitelisted_source_name s = false ∧ is_whitelisted l = false)) ∧
    processEntry artist topic e = none := by
  constructor
  · unfold gateAReject
    cases hA : is_whitelisted_source_name s <;>
      cases hB : is_whitelisted l <;> simp [hA, hB]
  · unfold processEntry gateAReject
    simp [h1, h2]

theorem claim1_gateA_witness :
    is_whitelisted_source_name evilEntry.source_name = false ∧
    is_whitelisted evilEntry.link = false ∧
    validate_content (evilEntry.title ++ " " ++ evilEntry.description) = true ∧
    gateAReject "Evil Blog" "https://evil.example.net/x" = true ∧
    processEntry "BTS" "US Tour" evilEntry = none := by
  have h := claim1_gateA "Evil Blog" "https://evil.example.net/x" "BTS" "US Tour" evilEntry
    (by decide) (by decide)
  exact ⟨by decide, by decide, by decide, h.1.mpr ⟨by decide, by decide⟩, h.2⟩

/-! ### Claim C10 -/

/-- **C10**: a source name that normalizes to the empty string (empty,
or spaces only) passes `is_whitelisted_source_name`, because the empty
string is a substring of every whitelist domain; hence such an entry
passes Gate A regardless of its link. -/
theorem claim10_empty_source_name (s : String)
    (h : (pyLower s).data.filter (fun c => c ≠ ' ') = []) :
    is_whitelisted_source_name s = true ∧ ∀ l, gateAReject s l = false := by
  have hw : is_whitelisted_source_name s = true := by
    simp only [is_whitelisted_source_name]
    rw [List.any_eq_true]
    exact ⟨"soompi.com", by decide, by rw [h]; exact containsSeq_nil _⟩
  refine ⟨hw, fun l => ?_⟩
  unfold gateAReject
  simp [hw]

theorem claim10_witness :
    is_whitelisted_source_name "  " = true ∧
    gateAReject "  " "https://evil.example.net/x" = false :=
  ⟨(claim10_empty_source_name "  " (by decide)).1,
   (claim10_empty_source_name "  " (by decide)).2 "https://evil.example.net/x"⟩

/-! ### Claim C9 -/

/-- **C9**: every candidate emitted by the per-entry pipeline has an
`image_url` that is either empty or accepted by `is_valid_image`: the
final re-validation (kpop_bot.py lines 192-193) clears any attached
image failing `is_valid_image` before the candidate is appended, even
when the image bypassed validation at discovery (a `media:content`
attachment). -/
theorem claim9_image_invariant (artist topic : String) (e : Entry) (c : Candidate)
    (h : processEntry artist topic e = some c) :
    c.image_url = "" ∨ is_valid_image c.image_url = true := by
  unfold processEntry at h
  by_cases hA : gateAReject e.source_name e.link
  · simp [hA] at h
  · by_cases hB : validate_content (e.title ++ " " ++ e.description)
    · simp only [hA, hB, Bool.not_true, if_false, Bool.false_eq_true, Option.some.injEq] at h
      subst h
      simp only []
      by_cases h1 : (discoverImage e).data.isEmpty
      · left
        simp [h1]
        exact ((str_empty_iff _).mp (List.isEmpty_iff.mp h1))
      · by_cases h2 : is_valid_image (discoverImage e)
        · right
          simp [h1, h2]
        · left
          simp [h1, h2]
    · simp [hA, hB] at h

theorem claim9_witness :
    soompiCandidate.image_url = "" ∨
    is_valid_image soompiCandidate.image_url = true :=
  claim9_image_invariant "BTS" "Comeback" soompiEntry soompiCandidate (by decide)

/-! ### Claim C4 -/

theorem dedupAux_eq (n : Nat) : ∀ l : List Candidate, l.length ≤ n → ∀ seen : List String,
    deduplicateAux seen l = specDedup (l.filter (fun y => titleKey y ∉ seen)) := by
  induction n with
  | zero =>
    intro l hl seen
    rw [List.eq_nil_of_length_eq_zero (Nat.le_zero.mp hl)]
    simp [deduplicateAux, specDedup]
  | succ n ih =>
    intro l hl seen
    cases l with
    | nil => simp [deduplicateAux, specDedup]
    | cons x xs =>
      by_cases hx : titleKey x ∈ seen
      · rw [List.filter_cons_of_neg (by simpa using hx)]
        simp only [deduplicateAux, hx, if_true]
        exact ih xs (by simpa using Nat.le_of_succ_le_succ hl) seen
      · rw [List.filter_cons_of_pos (by simpa using hx)]
        simp only [deduplicateAux, hx, if_false]
        rw [specDedup, List.filter_filter,
          ih xs (by simpa using Nat.le_of_succ_le_succ hl) (titleKey x :: seen)]
        congr 2
        refine List.filter_congr (fun y _ => ?_)
        by_cases h1 : titleKey y = titleKey x <;>
          by_cases h2 : titleKey y ∈ seen <;> simp [h1, h2]

/-- **C4**: `deduplicate` keeps exactly the first candidate of each key
(lowercase of the title's first 30 characters) in input order and drops
every later candidate with the same key (this is `specDedup`, the
spec's description); in particular, for two candidates sharing the
first 30 lowercase title characters it keeps the first and drops the
second, whatever their other fields. -/
theorem claim4_deduplicate (l : List Candidate) (a b : Candidate)
    (h : titleKey a = titleKey b) :
    deduplicate l = specDedup l ∧ deduplicate [a, b] = [a] := by
  constructor
  · have h0 := dedupAux_eq l.length l (Nat.le_refl _) []
    simpa [deduplicate] using h0
  · simp [deduplicate, deduplicateAux, h.symm]

theorem claim4_witness :
    titleKey candA = titleKey candB ∧ deduplicate [candA, candB] = [candA] :=
  ⟨by decide, (claim4_deduplicate [candA, candB] candA candB (by decide)).2⟩

/-! ### Claim C5 -/

theorem enrich_att_bound (f : String → String) (limit : Nat) :
    ∀ (items : List Candidate) (counts : List (String × Nat)) (key : String),
      (enrichAux f limit counts items).2.1.count key
        ≤ limit - ((counts.lookup key).getD 0) := by
  intro items
  induction items with
  | nil => intro counts key; simp [enrichAux]
  | cons item rest ih =>
    intro counts key
    simp only [enrichAux]
    by_cases hcond : ((((counts.lookup (item.artist ++ "_" ++ item.topic)).getD 0) < limit)
        && item.image_url.data.isEmpty) = true
    · rw [if_pos hcond]
      have hlt : ((counts.lookup (item.artist ++ "_" ++ item.topic)).getD 0) < limit := by
        simpa using (Bool.and_eq_true _ _ |>.mp hcond).1
      have hIH := ih ((item.artist ++ "_" ++ item.topic,
        ((counts.lookup (item.artist ++ "_" ++ item.topic)).getD 0) + 1) :: counts) key
      by_cases hk : (item.artist ++ "_" ++ item.topic) = key
      · subst hk
        simp only [List.lookup_cons_self, Option.getD_some] at hIH
        simp only [List.count_cons_self]
        omega
      · have hbeq : (key == (item.artist ++ "_" ++ item.topic)) = false := by
          simp only [beq_eq_false_iff_ne, ne_eq]
          exact fun hcontra => hk hcontra.symm
        rw [List.lookup_cons] at hIH
        simp only [hbeq] at hIH
        simpa [List.count_cons, hbeq, hk] using hIH
    · rw [if_neg hcond]
      exact ih counts key

theorem enrich_counts_eq (f : String → String) (limit : Nat) :
    ∀ (items : List Candidate) (counts : List (String × Nat)) (key : String),
      ((enrichAux f limit counts items).2.2.lookup key).getD 0 =
        ((counts.lookup key).getD 0) + (enrichAux f limit counts items).2.1.count key := by
  intro items
  induction items with
  | nil => intro counts key; simp [enrichAux]
  | cons item rest ih =>
    intro counts key
    simp only [enrichAux]
    by_cases hcond : ((((counts.lookup (item.artist ++ "_" ++ item.topic)).getD 0) < limit)
        && item.image_url.data.isEmpty) = true
    · rw [if_pos hcond]
      have hIH := ih ((item.artist ++ "_" ++ item.topic,
        ((counts.lookup (item.artist ++ "_" ++ item.topic)).getD 0) + 1) :: counts) key
      by_cases hk : (item.artist ++ "_" ++ item.topic) = key
      · subst hk
        simp only [List.lookup_cons_self, Option.getD_some] at hIH
        simp only [List.count_cons_self, hIH]
        omega
      · have hbeq : (key == (item.artist ++ "_" ++ item.topic)) = false := by
          simp only [beq_eq_false_iff_ne, ne_eq]
          exact fun hcontra => hk hcontra.symm
        rw [List.lookup_cons] at hIH
        simp only [hbeq] at hIH
        simpa [List.count_cons, hbeq, hk] using hIH
    · rw [if_neg hcond]
      exact ih counts key

/-- **C5**: starting from the empty counter dict, the enrichment loop
performs at most `limit` fetch attempts for any single
`artist_topic` group (the attempts list records every `fetch_og_image`
invocation, successful or not), and the group's counter equals the
number of attempts made for it — the counter increments on every
attempt once the limit check passes, so the quota throttles attempts,
not successes. -/
theorem claim5_enrichment_quota (f : String → String) (limit : Nat)
    (items : List Candidate) (key : String) :
    enrich_with_images f items limit = (enrichAux f limit [] items).1 ∧
    (enrichAux f limit [] items).2.1.count key ≤ limit ∧
    ((enrichAux f limit [] items).2.2.lookup key).getD 0 =
      (enrichAux f limit [] items).2.1.count key := by
  refine ⟨rfl, ?_, ?_⟩
  · simpa using enrich_att_bound f limit items [] key
  · simpa using enrich_counts_eq f limit items [] key

/-! ### Claim C3 -/

/-- **C3 counterexample**: a missing title is not recovered by an empty
string and not silently discarded — field extraction raises
(`AttributeError` from `None.text`), aborting processing; and a missing
source is substituted by `"Unknown"`, not by the empty string. -/
theorem claim3_counterexample :
    getFields missingTitleEntry = Except.error "AttributeError" ∧
    getFields missingSourceEntry = Except.ok ("t", "Unknown", "u", "p", "d") ∧
    "Unknown" ≠ "" := by
  refine ⟨rfl, rfl, by decide⟩

/-- **C3 amended**: only a missing description is recovered by
substituting the empty string (and a missing source tag by the constant
`"Unknown"`); an entry missing title, link, or publish date makes field
extraction fail with `AttributeError` — aborting the fetch — rather
than the candidate being discarded individually. -/
theorem claim3_amended (e : RawEntry) :
    ((getFields e).isOk = (e.title.isSome && e.link.isSome && e.pubDate.isSome)) ∧
    (∀ t l p, e.title = some t → e.link = some l → e.pubDate = some p →
      getFields e = Except.ok (t, e.source.getD "Unknown", l, p, e.description.getD "")) := by
  obtain ⟨t?, s?, l?, p?, d?⟩ := e
  constructor
  · cases t? <;> cases l? <;> cases p? <;>
      simp [getFields, Except.isOk, Except.toBool]
  · intro t l p ht hl hp
    cases ht; cases hl; cases hp
    rfl

theorem claim3_witness :
    getFields { title := some "t", source := none, link := some "u",
                pubDate := some "p", description := none } =
      Except.ok ("t", "Unknown", "u", "p", "") :=
  (claim3_amended { title := some "t", source := none, link := some "u",
                    pubDate := some "p", description := none }).2
    "t" "u" "p" rfl rfl rfl

/-! ### Claim C8 -/

theorem ciTake_toLower (p : List Char) :
    ∀ (s m : List Char), ciTake p s = some m →
      m.map Char.toLower = p.map Char.toLower := by
  induction p with
  | nil =>
    intro s m h
    simp only [ciTake, Option.some.injEq] at h
    subst h
    rfl
  | cons a as ih =>
    intro s m h
    cases s with
    | nil => simp [ciTake] at h
    | cons c cs =>
      simp only [ciTake] at h
      split at h
      next hc =>
        split at h
        next m' heq =>
          cases h
          simp only [List.map_cons]
          rw [ih cs m' heq, beq_iff_eq.mp hc]
        next heq => exact Option.noConfusion h
      next hc => exact Option.noConfusion h

theorem cityAlt_sound (s : List Char) :
    ∀ (vs : List String) (m : List Char), cityAlt s vs = some m →
      ∃ v ∈ vs, m.map Char.toLower = v.data.map Char.toLower := by
  intro vs
  induction vs with
  | nil => intro m h; simp [cityAlt] at h
  | cons v rest ih =>
    intro m h
    simp only [cityAlt] at h
    split at h
    next m' heq =>
      split at h
      next hb =>
        cases h
        exact ⟨v, List.mem_cons_self _ _, ciTake_toLower v.data s _ heq⟩
      next hb =>
        obtain ⟨w, hw, hm⟩ := ih m h
        exact ⟨w, List.mem_cons_of_mem _ hw, hm⟩
    next heq =>
      obtain ⟨w, hw, hm⟩ := ih m h
      exact ⟨w, List.mem_cons_of_mem _ hw, hm⟩

theorem matchCityAt_sound (prev : Option Char) (s : List Char) (g : String)
    (m : List Char) (h : matchCityAt prev s = some (g, m)) :
    ∃ v ∈ cityVocab, pyLower g = pyLower v := by
  simp only [matchCityAt] at h
  split at h
  next hb =>
    split at h
    next m' heq =>
      obtain ⟨hg, hm⟩ := Prod.mk.injEq .. ▸ Option.some.inj h
      obtain ⟨v, hv, hlm⟩ := cityAlt_sound s cityVocab m' heq
      refine ⟨v, hv, ?_⟩
      apply String.ext
      show g.data.map Char.toLower = v.data.map Char.toLower
      rw [← hg]
      exact hlm
    next heq => exact Option.noConfusion h
  next hb => exact Option.noConfusion h

theorem findAllG_sound (matchAt : Option Char → List Char → Option (String × List Char))
    (P : String → Prop)
    (hm : ∀ prev s g m, matchAt prev s = some (g, m) → P g) :
    ∀ (fuel : Nat) (prev : Option Char) (s : List Char),
      ∀ x ∈ findAllG matchAt fuel prev s, P x := by
  intro fuel
  induction fuel with
  | zero => intro prev s x hx; cases s <;> simp [findAllG] at hx
  | succ n ih =>
    intro prev s x hx
    cases s with
    | nil => simp [findAllG] at hx
    | cons c rest =>
      simp only [findAllG] at hx
      split at hx
      next g m hmt =>
        cases m with
        | nil => exact ih (some c) rest x hx
        | cons m1 mrest =>
          simp only [List.mem_cons] at hx
          rcases hx with rfl | hx
          · exact hm prev (c :: rest) x (m1 :: mrest) hmt
          · exact ih (m1 :: mrest).getLast? ((c :: rest).drop (m1 :: mrest).length) x hx
      next hmt => exact ih (some c) rest x hx

/-- **C8 counterexample**: `extract_metadata` returns matches in their
original casing, so on input `"SEATTLE"` the extracted city is
`"SEATTLE"`, which is *not* an entry of the fixed city vocabulary (the
regex alternatives). -/
theorem claim8_counterexample :
    (extract_metadata "SEATTLE").1 = ["SEATTLE"] ∧ "SEATTLE" ∉ cityVocab := by
  refine ⟨rfl, by decide⟩

/-- **C8 amended**: city extraction is deterministic (a pure function of
its input), and every extracted city equals some entry of the fixed
city vocabulary *up to ASCII case* (it is returned in the casing in
which it was matched). -/
theorem claim8_amended (s : String) :
    (extract_metadata s).1 = (extract_metadata s).1 ∧
    ∀ x ∈ (extract_metadata s).1, ∃ v ∈ cityVocab, pyLower x = pyLower v := by
  refine ⟨rfl, fun x hx => ?_⟩
  have hx' : x ∈ pyFindAll matchCityAt s.data := by
    simpa [extract_metadata, List.mem_dedup] using hx
  exact findAllG_sound matchCityAt (fun g => ∃ v ∈ cityVocab, pyLower g = pyLower v)
    (fun prev s' g m h => matchCityAt_sound prev s' g m h)
    s.data.length none s.data x hx'

theorem claim8_witness :
    ∃ v ∈ cityVocab, pyLower "seattle" = pyLower v :=
  (claim8_amended "Visit seattle now").2 "seattle" (by decide)

end KpopBot
